import Mathlib

/-!
Verification of the EGAfetch download engine against its specification.

The Go sources are shallowly embedded: pure functions become Lean
functions, the file-level state machine becomes an explicit step
function, filesystem and HTTP effects become explicit state passing
with outcome oracles.  Byte offsets and sizes (Go `int64`) are
modelled as `Nat`; all values handled by the engine are non-negative.
-/

namespace EGAfetch

/-! ## Data model (internal/state: FileStatus, ChunkStatus, ChunkState, FileState) -/

/-- `FileStatus` from internal/state: the download state of a single file. -/
inductive FileStatus where
  | pending
  | chunking
  | downloading
  | merging
  | verifying
  | complete
  | failed
deriving DecidableEq, Repr

/-- `ChunkStatus` from internal/state: the download state of a single chunk. -/
inductive ChunkStatus where
  | pending
  | downloading
  | complete
  | failed
deriving DecidableEq, Repr

/-- `ChunkState` from internal/state.  The Go field `End` is named `stop`
here because `end` is a Lean keyword; `Start` is inclusive, `stop` exclusive. -/
structure ChunkState where
  index : Nat
  start : Nat
  stop : Nat
  status : ChunkStatus
  bytesDownloaded : Nat
  retryCount : Nat
deriving DecidableEq, Repr

/-- `FileState` from internal/state (timestamp fields omitted: real time
is outside the embedding; they are never read by the embedded logic). -/
structure FileState where
  fileID : String
  fileName : String
  status : FileStatus
  size : Nat
  checksumExpected : String
  checksumType : String
  chunkSize : Nat
  chunks : List ChunkState
  downloadURL : String
  error : String
  retryCount : Nat
deriving DecidableEq, Repr

/-! ## Chunk plan construction (internal/state: InitChunks) -/

/-- The chunk-building loop shared by `InitChunks` and `rechunkRemaining`:
`for offset < size { end := min(offset+chunkSize, size); append; offset = end }`.
The Go loop only terminates when `chunkSize > 0`; the guard makes the
Lean function total and agree with Go on every terminating run. -/
def buildChunks (size chunkSize : Nat) (offset index : Nat) : List ChunkState :=
  if h : offset < size ∧ 0 < chunkSize then
    { index := index, start := offset, stop := min (offset + chunkSize) size,
      status := .pending, bytesDownloaded := 0, retryCount := 0 } ::
      buildChunks size chunkSize (min (offset + chunkSize) size) (index + 1)
  else []
termination_by size - offset
decreasing_by
  rcases h with ⟨h1, h2⟩
  rcases Nat.le_total (offset + chunkSize) size with h3 | h3
  · rw [Nat.min_eq_left h3]; omega
  · rw [Nat.min_eq_right h3]; omega

/-- The single degenerate chunk created for zero-size files. -/
def emptyChunk : ChunkState :=
  { index := 0, start := 0, stop := 0, status := .pending,
    bytesDownloaded := 0, retryCount := 0 }

/-- `(*FileState).InitChunks` from internal/state: divides the file into
chunks; idempotent — if chunks already exist (resume case) it does nothing;
a zero-size file gets a single empty chunk. -/
def FileState.InitChunks (fs : FileState) : FileState :=
  if fs.chunks.length > 0 then fs
  else
    let cs := buildChunks fs.size fs.chunkSize 0 0
    let cs := if cs = [] then [emptyChunk] else cs
    { fs with chunks := cs }

/-- `(*FileState).IsComplete` from internal/state. -/
def FileState.IsComplete (fs : FileState) : Bool :=
  fs.status = FileStatus.complete

/-- `(*FileState).PendingChunks` from internal/state: the chunks that are
not yet complete (Go returns pointers; positions are what matters here). -/
def FileState.PendingChunks (fs : FileState) : List ChunkState :=
  fs.chunks.filter (fun c => c.status ≠ ChunkStatus.complete)

/-- `(*FileState).AllChunksComplete` from internal/state. -/
def FileState.AllChunksComplete (fs : FileState) : Bool :=
  fs.chunks.all (fun c => c.status = ChunkStatus.complete)

/-! ## Partition predicates

`chainFrom lo cs` walks a chunk list checking contiguity (`c.start = lo`,
`lo ≤ c.stop`, continue from `c.stop`) and returns the final offset.
`chainFrom 0 cs = some size` is the spec's partition law for `[0, size)`. -/

def chainFrom (lo : Nat) : List ChunkState → Option Nat
  | [] => some lo
  | c :: rest => if c.start = lo ∧ lo ≤ c.stop then chainFrom c.stop rest else none

/-- Dense indices starting at `i`. -/
def denseFrom (i : Nat) : List ChunkState → Bool
  | [] => true
  | c :: rest => c.index = i && denseFrom (i + 1) rest

/-! ### Generic facts about `chainFrom` -/

lemma chainFrom_nil_eq {lo hi : Nat} (h : chainFrom lo [] = some hi) : lo = hi := by
  simpa [chainFrom] using h

lemma chainFrom_cons {lo hi : Nat} {c : ChunkState} {cs : List ChunkState}
    (h : chainFrom lo (c :: cs) = some hi) :
    c.start = lo ∧ lo ≤ c.stop ∧ chainFrom c.stop cs = some hi := by
  by_cases hc : c.start = lo ∧ lo ≤ c.stop
  · simp only [chainFrom, if_pos hc] at h
    exact ⟨hc.1, hc.2, h⟩
  · simp [chainFrom, if_neg hc] at h

lemma chainFrom_head {lo hi : Nat} {cs : List ChunkState} {c : ChunkState}
    (h : chainFrom lo cs = some hi) (hc : cs.head? = some c) : c.start = lo := by
  cases cs with
  | nil => simp at hc
  | cons d rest =>
    simp only [List.head?_cons, Option.some.injEq] at hc
    subst hc
    exact (chainFrom_cons h).1

lemma chainFrom_le {lo hi : Nat} : ∀ {cs : List ChunkState},
    chainFrom lo cs = some hi → lo ≤ hi := by
  intro cs
  induction cs generalizing lo with
  | nil => intro h; exact (chainFrom_nil_eq h).le
  | cons c rest ih =>
    intro h
    obtain ⟨h1, h2, h3⟩ := chainFrom_cons h
    exact h2.trans (ih h3)

lemma chainFrom_last {lo hi : Nat} : ∀ {cs : List ChunkState} {c : ChunkState},
    chainFrom lo cs = some hi → cs.getLast? = some c → c.stop = hi := by
  intro cs
  induction cs generalizing lo with
  | nil => intro c _ hc; simp at hc
  | cons d rest ih =>
    intro c h hc
    obtain ⟨h1, h2, h3⟩ := chainFrom_cons h
    cases rest with
    | nil =>
      simp only [List.getLast?_singleton, Option.some.injEq] at hc
      subst hc
      exact chainFrom_nil_eq h3
    | cons e rest2 =>
      rw [List.getLast?_cons_cons] at hc
      exact ih h3 hc

lemma chainFrom_adjacent {lo hi : Nat} : ∀ {cs : List ChunkState},
    chainFrom lo cs = some hi → ∀ i c1 c2,
      cs[i]? = some c1 → cs[i + 1]? = some c2 → c1.stop = c2.start := by
  intro cs
  induction cs generalizing lo with
  | nil => intro _ i c1 c2 h1; simp at h1
  | cons c rest ih =>
    intro h i c1 c2 hc1 hc2
    obtain ⟨h1, h2, h3⟩ := chainFrom_cons h
    cases i with
    | zero =>
      simp only [List.getElem?_cons_zero, Option.some.injEq] at hc1
      subst hc1
      cases rest with
      | nil => simp at hc2
      | cons d rest2 =>
        simp only [List.getElem?_cons_succ, List.getElem?_cons_zero,
          Option.some.injEq] at hc2
        subst hc2
        exact ((chainFrom_cons h3).1).symm
    | succ j =>
      simp only [List.getElem?_cons_succ] at hc1 hc2
      exact ih h3 j c1 c2 hc1 hc2

lemma chainFrom_append {lo : Nat} : ∀ {xs ys : List ChunkState},
    chainFrom lo (xs ++ ys) = (chainFrom lo xs).bind (fun m => chainFrom m ys) := by
  intro xs
  induction xs generalizing lo with
  | nil => intro ys; simp [chainFrom]
  | cons c rest ih =>
    intro ys
    by_cases hc : c.start = lo ∧ lo ≤ c.stop
    · simp only [List.cons_append, chainFrom, if_pos hc]
      exact ih
    · simp [chainFrom, if_neg hc]

lemma denseFrom_append {i : Nat} : ∀ {xs ys : List ChunkState},
    denseFrom i (xs ++ ys) = (denseFrom i xs && denseFrom (i + xs.length) ys) := by
  intro xs
  induction xs generalizing i with
  | nil => intro ys; simp [denseFrom]
  | cons c rest ih =>
    intro ys
    rw [List.cons_append, denseFrom, denseFrom, ih]
    simp only [List.length_cons, Bool.and_assoc]
    have h2 : i + (rest.length + 1) = i + 1 + rest.length := by omega
    rw [h2]

/-! ### Structural facts about `buildChunks` -/

lemma buildChunks_chainFrom (size chunkSize : Nat) (hC : 0 < chunkSize) :
    ∀ offset index, offset ≤ size →
      chainFrom offset (buildChunks size chunkSize offset index) = some size := by
  have main : ∀ n offset index, size - offset ≤ n → offset ≤ size →
      chainFrom offset (buildChunks size chunkSize offset index) = some size := by
    intro n
    induction n with
    | zero =>
      intro offset index hn hle
      have : offset = size := by omega
      subst this
      rw [buildChunks]
      simp [chainFrom]
    | succ n ih =>
      intro offset index hn hle
      by_cases hlt : offset < size
      · rw [buildChunks, dif_pos ⟨hlt, hC⟩]
        have hmin : offset ≤ min (offset + chunkSize) size :=
          le_min (by omega) (by omega)
        rw [chainFrom, if_pos ⟨rfl, hmin⟩]
        dsimp only
        apply ih
        · rcases Nat.le_total (offset + chunkSize) size with h3 | h3
          · rw [Nat.min_eq_left h3]; omega
          · rw [Nat.min_eq_right h3]; omega
        · exact min_le_right _ _
      · have : offset = size := by omega
        subst this
        rw [buildChunks]
        simp [chainFrom]
  intro offset index hle
  exact main (size - offset) offset index le_rfl hle

lemma buildChunks_denseFrom (size chunkSize : Nat) :
    ∀ offset index, denseFrom index (buildChunks size chunkSize offset index) = true := by
  have main : ∀ n offset index, size - offset ≤ n →
      denseFrom index (buildChunks size chunkSize offset index) = true := by
    intro n
    induction n with
    | zero =>
      intro offset index hn
      rw [buildChunks]
      have : ¬ (offset < size ∧ 0 < chunkSize) := by omega
      rw [dif_neg this]
      simp [denseFrom]
    | succ n ih =>
      intro offset index hn
      by_cases hcond : offset < size ∧ 0 < chunkSize
      · rw [buildChunks, dif_pos hcond]
        simp only [denseFrom, decide_eq_true_eq, Bool.and_eq_true]
        refine ⟨by simp, ih _ _ ?_⟩
        rcases Nat.le_total (offset + chunkSize) size with h3 | h3
        · rw [Nat.min_eq_left h3]; omega
        · rw [Nat.min_eq_right h3]; omega
      · rw [buildChunks, dif_neg hcond]
        simp [denseFrom]
  intro offset index
  exact main (size - offset) offset index le_rfl

lemma getLast?_cons_of_ne_nil {α : Type} {c : α} {l : List α} (h : l ≠ []) :
    (c :: l).getLast? = l.getLast? := by
  cases l with
  | nil => exact absurd rfl h
  | cons d rest => rw [List.getLast?_cons_cons]

lemma buildChunks_ne_nil {size chunkSize offset index : Nat}
    (hlt : offset < size) (hC : 0 < chunkSize) :
    buildChunks size chunkSize offset index ≠ [] := by
  rw [buildChunks, dif_pos ⟨hlt, hC⟩]
  simp

lemma buildChunks_all_pending (size chunkSize : Nat) :
    ∀ offset index, ∀ c ∈ buildChunks size chunkSize offset index,
      c.status = ChunkStatus.pending ∧ c.bytesDownloaded = 0 := by
  have main : ∀ n offset index, size - offset ≤ n →
      ∀ c ∈ buildChunks size chunkSize offset index,
        c.status = ChunkStatus.pending ∧ c.bytesDownloaded = 0 := by
    intro n
    induction n with
    | zero =>
      intro offset index hn c hc
      rw [buildChunks] at hc
      have : ¬ (offset < size ∧ 0 < chunkSize) := by omega
      rw [dif_neg this] at hc
      simp at hc
    | succ n ih =>
      intro offset index hn c hc
      by_cases hcond : offset < size ∧ 0 < chunkSize
      · rw [buildChunks, dif_pos hcond] at hc
        rcases List.mem_cons.mp hc with h | h
        · subst h; exact ⟨rfl, rfl⟩
        · refine ih _ _ ?_ c h
          rcases Nat.le_total (offset + chunkSize) size with h3 | h3
          · rw [Nat.min_eq_left h3]; omega
          · rw [Nat.min_eq_right h3]; omega
      · rw [buildChunks, dif_neg hcond] at hc
        simp at hc
  intro offset index
  exact main (size - offset) offset index le_rfl

/-- The last chunk of `buildChunks`, in closed form. -/
lemma buildChunks_getLast (size chunkSize : Nat) (hC : 0 < chunkSize) :
    ∀ offset index, offset < size →
      (buildChunks size chunkSize offset index).getLast? = some
        { index := index + (size - offset - 1) / chunkSize,
          start := offset + chunkSize * ((size - offset - 1) / chunkSize),
          stop := size, status := .pending, bytesDownloaded := 0, retryCount := 0 } := by
  have main : ∀ n offset index, size - offset ≤ n → offset < size →
      (buildChunks size chunkSize offset index).getLast? = some
        { index := index + (size - offset - 1) / chunkSize,
          start := offset + chunkSize * ((size - offset - 1) / chunkSize),
          stop := size, status := .pending, bytesDownloaded := 0, retryCount := 0 } := by
    intro n
    induction n with
    | zero => intro offset index hn hlt; omega
    | succ n ih =>
      intro offset index hn hlt
      rw [buildChunks, dif_pos ⟨hlt, hC⟩]
      by_cases hfit : offset + chunkSize < size
      · -- the tail is nonempty; recurse
        rw [Nat.min_eq_left (by omega)]
        have htail := ih (offset + chunkSize) (index + 1) (by omega) hfit
        rw [getLast?_cons_of_ne_nil (buildChunks_ne_nil hfit hC), htail]
        have hdiv : (size - offset - 1) / chunkSize
            = (size - (offset + chunkSize) - 1) / chunkSize + 1 := by
          have hx : size - offset - 1 = (size - (offset + chunkSize) - 1) + chunkSize := by
            omega
          rw [hx, Nat.add_div_right _ hC]
        rw [hdiv]
        simp only [Option.some.injEq, ChunkState.mk.injEq, Nat.mul_add, Nat.mul_one,
          and_true, true_and]
        omega
      · -- last iteration: stop = size, tail empty
        have hstop : min (offset + chunkSize) size = size := by
          rw [Nat.min_eq_right (by omega)]
        rw [hstop]
        have htail : buildChunks size chunkSize size (index + 1) = [] := by
          rw [buildChunks, dif_neg (by omega)]
        rw [htail]
        have hdiv : (size - offset - 1) / chunkSize = 0 := by
          apply Nat.div_eq_of_lt; omega
        rw [hdiv]
        simp
  intro offset index hlt
  exact main (size - offset) offset index le_rfl hlt

/-! ## Claim C2: `InitChunks` produces a contiguous partition of `[0, size)` -/

/-- The property claimed of `InitChunks`: on a fresh state the chunk plan
contiguously partitions `[0, size)` with dense 0-based indices, a zero-size
file gets one degenerate chunk `[0,0)`, the last chunk is `[N*C, size)` when
`C` does not divide `size`; a non-empty chunk list (resume) is unchanged. -/
def InitChunksSpec (fs : FileState) : Prop :=
  (fs.chunks ≠ [] → fs.InitChunks = fs) ∧
  (fs.chunks = [] →
    fs.InitChunks.chunks ≠ [] ∧
    chainFrom 0 fs.InitChunks.chunks = some fs.size ∧
    (∀ c, fs.InitChunks.chunks.head? = some c → c.start = 0) ∧
    (∀ i c1 c2, fs.InitChunks.chunks[i]? = some c1 →
      fs.InitChunks.chunks[i + 1]? = some c2 → c1.stop = c2.start) ∧
    (∀ c, fs.InitChunks.chunks.getLast? = some c → c.stop = fs.size) ∧
    denseFrom 0 fs.InitChunks.chunks = true ∧
    (fs.size = 0 → fs.InitChunks.chunks = [emptyChunk]) ∧
    (0 < fs.size → ¬ fs.chunkSize ∣ fs.size →
      ∀ c, fs.InitChunks.chunks.getLast? = some c →
        c.start = fs.size / fs.chunkSize * fs.chunkSize ∧
        c.stop = fs.size ∧ c.stop - c.start < fs.chunkSize))

/-- C2: for every `FileState` with positive chunk size, `InitChunks` yields a
contiguous partition of `[0, size)` — first start 0, adjacent chunks abut,
last end = size, dense 0-based indices, zero-size files get the single
degenerate chunk `[0,0)`, misaligned sizes end with the short chunk
`[N·C, size)` — and a state whose chunk list is already non-empty (resume)
is left unchanged. -/
theorem InitChunks_partitions (fs : FileState) (hC : 0 < fs.chunkSize) :
    InitChunksSpec fs := by
  constructor
  · intro hne
    have : fs.chunks.length > 0 := List.length_pos.mpr hne
    simp [FileState.InitChunks, this]
  · intro hnil
    have hlen : ¬ fs.chunks.length > 0 := by simp [hnil]
    rcases Nat.eq_zero_or_pos fs.size with hsz | hsz
    · -- zero-size file: the build loop yields [] and the fallback fires
      have hbuild : buildChunks fs.size fs.chunkSize 0 0 = [] := by
        rw [buildChunks, dif_neg (by omega)]
      have hchunks : fs.InitChunks.chunks = [emptyChunk] := by
        simp [FileState.InitChunks, hlen, hbuild]
      rw [hchunks]
      refine ⟨by simp, ?_, ?_, ?_, ?_, ?_, fun _ => rfl, ?_⟩
      · simp [chainFrom, emptyChunk, hsz]
      · intro c hc
        simp only [List.head?_cons, Option.some.injEq] at hc
        subst hc; rfl
      · intro i c1 c2 _ h2; simp at h2
      · intro c hc
        simp only [List.getLast?_singleton, Option.some.injEq] at hc
        subst hc; simp [emptyChunk, hsz]
      · simp [denseFrom, emptyChunk]
      · intro h0
        exact absurd h0 (by omega)
    · -- positive size: the build loop yields the whole plan
      have hne : buildChunks fs.size fs.chunkSize 0 0 ≠ [] :=
        buildChunks_ne_nil hsz hC
      have hchunks : fs.InitChunks.chunks = buildChunks fs.size fs.chunkSize 0 0 := by
        simp [FileState.InitChunks, hlen, hne]
      have hchain : chainFrom 0 (buildChunks fs.size fs.chunkSize 0 0) = some fs.size :=
        buildChunks_chainFrom fs.size fs.chunkSize hC 0 0 (Nat.zero_le _)
      rw [hchunks]
      refine ⟨hne, hchain, ?_, ?_, ?_, ?_, ?_, ?_⟩
      · intro c hc; exact chainFrom_head hchain hc
      · exact chainFrom_adjacent hchain
      · intro c hc; exact chainFrom_last hchain hc
      · exact buildChunks_denseFrom fs.size fs.chunkSize 0 0
      · intro h0; omega
      · intro _ hdvd c hc
        have hlast := buildChunks_getLast fs.size fs.chunkSize hC 0 0 hsz
        rw [hlast] at hc
        have hr : fs.size % fs.chunkSize ≠ 0 := by
          intro h0; exact hdvd (Nat.dvd_of_mod_eq_zero h0)
        have hrlt : fs.size % fs.chunkSize < fs.chunkSize := Nat.mod_lt _ hC
        have hq := Nat.div_add_mod fs.size fs.chunkSize
        have h1 : fs.size - 1
            = (fs.size % fs.chunkSize - 1) + fs.chunkSize * (fs.size / fs.chunkSize) := by
          omega
        have h2 : (fs.size - 1) / fs.chunkSize = fs.size / fs.chunkSize := by
          rw [h1, Nat.add_mul_div_left _ _ hC,
            Nat.div_eq_of_lt (show fs.size % fs.chunkSize - 1 < fs.chunkSize by omega)]
          exact Nat.zero_add _
        simp only [Option.some.injEq] at hc
        subst hc
        refine ⟨?_, rfl, ?_⟩
        · simp only [Nat.sub_zero, Nat.zero_add, h2]
          exact Nat.mul_comm _ _
        · simp only [Nat.sub_zero, Nat.zero_add, h2]
          omega

/-- Concrete input for the C2 witness: a fresh 10-byte file with 4-byte chunks. -/
def fsExC2 : FileState :=
  { fileID := "EGAF1", fileName := "a.bam", status := .pending, size := 10,
    checksumExpected := "", checksumType := "", chunkSize := 4, chunks := [],
    downloadURL := "", error := "", retryCount := 0 }

/-- Witness for C2 at a concrete input (size 10, chunk size 4). -/
theorem InitChunks_partitions_witness :
    0 < fsExC2.chunkSize ∧ InitChunksSpec fsExC2 :=
  ⟨by decide, InitChunks_partitions fsExC2 (by decide)⟩

/-! ## Claim C4: adaptive rechunking (internal/download/file.go: rechunkRemaining) -/

/-- The scan loop at the top of `rechunkRemaining`: collect every chunk with
status Complete (in order) and record the start of the first chunk that is
not complete (Go uses the sentinel `pendingStart == -1`; offsets here are
`Nat`, so the absent case is `none`). -/
def rechunkScan : List ChunkState → List ChunkState × Option Nat
  | [] => ([], none)
  | c :: rest =>
    let r := rechunkScan rest
    if c.status = ChunkStatus.complete then (c :: r.1, r.2)
    else (r.1, some c.start)

/-- `(*FileDownload).rechunkRemaining` from internal/download/file.go:
preserve completed chunks, re-create chunks from the first incomplete
chunk's start to the file end using the new chunk size, with indices
continuing from `len(completedChunks)`. -/
def rechunkRemaining (fs : FileState) (newChunkSize : Nat) : FileState :=
  let r := rechunkScan fs.chunks
  match r.2 with
  | none => fs
  | some pendingStart =>
    { fs with
        chunks := r.1 ++ buildChunks fs.size newChunkSize pendingStart r.1.length,
        chunkSize := newChunkSize }

/-- A lawful resume state in which a completed chunk sits after an
incomplete one: chunk 0 is pending, chunk 1 is complete (chunks finish in
any order under parallel download, so such states are persisted). -/
def fsC4 : FileState :=
  { fileID := "EGAF2", fileName := "b.bam", status := .downloading, size := 20,
    checksumExpected := "", checksumType := "", chunkSize := 10,
    chunks := [
      { index := 0, start := 0, stop := 10, status := .pending,
        bytesDownloaded := 0, retryCount := 0 },
      { index := 1, start := 10, stop := 20, status := .complete,
        bytesDownloaded := 10, retryCount := 0 }],
    downloadURL := "", error := "", retryCount := 0 }

/-- C4 counterexample: `fsC4` satisfies the partition law and has dense
indices, yet after `rechunkRemaining fsC4 5` the chunk list is no longer a
contiguous partition of `[0, size)` and its indices are not dense: the
preserved complete chunk `[10,20)` is followed by new chunks that re-cover
`[10,20)`, and index 1 occurs twice. -/
theorem rechunkRemaining_breaks_partition :
    chainFrom 0 fsC4.chunks = some fsC4.size ∧
    denseFrom 0 fsC4.chunks = true ∧
    chainFrom 0 (rechunkRemaining fsC4 5).chunks ≠ some (rechunkRemaining fsC4 5).size ∧
    denseFrom 0 (rechunkRemaining fsC4 5).chunks = false := by
  have hbuild : buildChunks 20 5 0 1 =
      [{ index := 1, start := 0, stop := 5, status := .pending,
         bytesDownloaded := 0, retryCount := 0 },
       { index := 2, start := 5, stop := 10, status := .pending,
         bytesDownloaded := 0, retryCount := 0 },
       { index := 3, start := 10, stop := 15, status := .pending,
         bytesDownloaded := 0, retryCount := 0 },
       { index := 4, start := 15, stop := 20, status := .pending,
         bytesDownloaded := 0, retryCount := 0 }] := by
    rw [buildChunks]; norm_num
    rw [buildChunks]; norm_num
    rw [buildChunks]; norm_num
    rw [buildChunks]; norm_num
    rw [buildChunks]; norm_num
  refine ⟨by simp [fsC4, chainFrom], by simp [fsC4, denseFrom], ?_, ?_⟩ <;>
    simp [rechunkRemaining, rechunkScan, fsC4, hbuild, chainFrom, denseFrom]

lemma rechunkScan_nonComplete {l : List ChunkState}
    (h : ∀ c ∈ l, c.status ≠ ChunkStatus.complete) :
    rechunkScan l = ([], l.head?.map (·.start)) := by
  cases l with
  | nil => rfl
  | cons c rest =>
    have hc : c.status ≠ ChunkStatus.complete := h c (List.mem_cons_self c rest)
    have hrest := rechunkScan_nonComplete (fun d hd => h d (List.mem_cons_of_mem c hd))
    simp [rechunkScan, hc, hrest]

lemma rechunkScan_complete_prefix {comp rest : List ChunkState}
    (h : ∀ c ∈ comp, c.status = ChunkStatus.complete) :
    rechunkScan (comp ++ rest)
      = (comp ++ (rechunkScan rest).1, (rechunkScan rest).2) := by
  induction comp with
  | nil => simp
  | cons c comp2 ih =>
    have hc : c.status = ChunkStatus.complete := h c (List.mem_cons_self c comp2)
    have ih2 := ih (fun d hd => h d (List.mem_cons_of_mem c hd))
    simp [rechunkScan, hc, ih2]

/-- C4 (amended): when every Complete chunk precedes every non-Complete
chunk — `chunks = comp ++ rest` with `comp` all complete and `rest` all
not complete — `rechunkRemaining` preserves the completed prefix verbatim,
appends fresh pending chunks of the new size with dense indices continuing
from the prefix, and the result again satisfies the partition law for
`[0, size)`.  (Without that ordering hypothesis the partition law breaks,
see the counterexample.)  When nothing is incomplete, the state is
unchanged. -/
theorem rechunkRemaining_partition (fs : FileState) (newChunkSize : Nat)
    (comp rest : List ChunkState)
    (hsplit : fs.chunks = comp ++ rest)
    (hcomp : ∀ c ∈ comp, c.status = ChunkStatus.complete)
    (hrest : ∀ c ∈ rest, c.status ≠ ChunkStatus.complete)
    (hchain : chainFrom 0 fs.chunks = some fs.size)
    (hdense : denseFrom 0 fs.chunks = true)
    (hC : 0 < newChunkSize) :
    (rest = [] → rechunkRemaining fs newChunkSize = fs) ∧
    (rest ≠ [] →
      ∃ tail, (rechunkRemaining fs newChunkSize).chunks = comp ++ tail ∧
        (∀ c ∈ tail, c.status = ChunkStatus.pending ∧ c.bytesDownloaded = 0) ∧
        (rechunkRemaining fs newChunkSize).chunkSize = newChunkSize ∧
        (rechunkRemaining fs newChunkSize).size = fs.size ∧
        chainFrom 0 (rechunkRemaining fs newChunkSize).chunks = some fs.size ∧
        denseFrom 0 (rechunkRemaining fs newChunkSize).chunks = true) := by
  have hscan : rechunkScan fs.chunks
      = (comp ++ ([] : List ChunkState), rest.head?.map (·.start)) := by
    rw [hsplit, rechunkScan_complete_prefix hcomp, rechunkScan_nonComplete hrest]
  constructor
  · intro hnil
    subst hnil
    simp only [List.head?_nil, Option.map_none'] at hscan
    simp [rechunkRemaining, hscan]
  · intro hne
    cases rest with
    | nil => exact absurd rfl hne
    | cons r rest2 =>
      simp only [List.head?_cons, Option.map_some', List.append_nil] at hscan
      -- decompose the input partition across the append
      rw [hsplit, chainFrom_append] at hchain
      obtain ⟨m, hm1, hm2⟩ : ∃ m, chainFrom 0 comp = some m ∧
          chainFrom m (r :: rest2) = some fs.size := by
        cases hcase : chainFrom 0 comp with
        | none => rw [hcase] at hchain; simp at hchain
        | some m => rw [hcase] at hchain; exact ⟨m, rfl, hchain⟩
      have hrs : r.start = m := (chainFrom_cons hm2).1
      subst hrs
      have hms : r.start ≤ fs.size := chainFrom_le hm2
      rw [hsplit, denseFrom_append, Bool.and_eq_true] at hdense
      have heq : (rechunkRemaining fs newChunkSize).chunks
          = comp ++ buildChunks fs.size newChunkSize r.start comp.length := by
        simp [rechunkRemaining, hscan]
      refine ⟨buildChunks fs.size newChunkSize r.start comp.length, heq, ?_, ?_, ?_, ?_, ?_⟩
      · intro c hc
        exact buildChunks_all_pending fs.size newChunkSize r.start comp.length c hc
      · simp [rechunkRemaining, hscan]
      · simp [rechunkRemaining, hscan]
      · rw [heq, chainFrom_append, hm1]
        simpa using buildChunks_chainFrom fs.size newChunkSize hC r.start comp.length hms
      · rw [heq, denseFrom_append, Bool.and_eq_true]
        refine ⟨hdense.1, ?_⟩
        simpa using buildChunks_denseFrom fs.size newChunkSize r.start comp.length

/-- Completed prefix for the C4 witness. -/
def compC4w : List ChunkState :=
  [{ index := 0, start := 0, stop := 8, status := .complete,
     bytesDownloaded := 8, retryCount := 0 }]

/-- Incomplete tail for the C4 witness. -/
def restC4w : List ChunkState :=
  [{ index := 1, start := 8, stop := 20, status := .pending,
     bytesDownloaded := 0, retryCount := 0 }]

/-- Concrete input for the C4 witness: 20 bytes, chunk 0 of `[0,8)` done. -/
def fsC4w : FileState :=
  { fileID := "EGAF3", fileName := "c.bam", status := .downloading, size := 20,
    checksumExpected := "", checksumType := "", chunkSize := 8,
    chunks := compC4w ++ restC4w, downloadURL := "", error := "", retryCount := 0 }

/-- Witness for the amended C4 at a concrete input (rechunk `[8,20)` to size 5). -/
theorem rechunkRemaining_partition_witness :
    (fsC4w.chunks = compC4w ++ restC4w ∧
     (∀ c ∈ compC4w, c.status = ChunkStatus.complete) ∧
     (∀ c ∈ restC4w, c.status ≠ ChunkStatus.complete) ∧
     chainFrom 0 fsC4w.chunks = some fsC4w.size ∧
     denseFrom 0 fsC4w.chunks = true ∧
     0 < 5) ∧
    ((restC4w = [] → rechunkRemaining fsC4w 5 = fsC4w) ∧
     (restC4w ≠ [] →
       ∃ tail, (rechunkRemaining fsC4w 5).chunks = compC4w ++ tail ∧
         (∀ c ∈ tail, c.status = ChunkStatus.pending ∧ c.bytesDownloaded = 0) ∧
         (rechunkRemaining fsC4w 5).chunkSize = 5 ∧
         (rechunkRemaining fsC4w 5).size = fsC4w.size ∧
         chainFrom 0 (rechunkRemaining fsC4w 5).chunks = some fsC4w.size ∧
         denseFrom 0 (rechunkRemaining fsC4w 5).chunks = true)) :=
  ⟨⟨rfl, by decide, by decide, by decide, by decide, by decide⟩,
    rechunkRemaining_partition fsC4w 5 compC4w restC4w rfl
      (by decide) (by decide) (by decide) (by decide) (by decide)⟩

/-! ## Claim C10: checksum selection (internal/api/types.go: GetChecksum) -/

/-- `FileMetadata` from internal/api/types.go (the fields read by
`GetChecksum`, plus identifiers). -/
structure FileMetadata where
  fileID : String
  fileName : String
  fileSize : Nat
  checksum : String
  plainChecksum : String
  unencryptedChecksum : String
  checksumType : String
  fileStatus : String
deriving DecidableEq, Repr

/-- `(*FileMetadata).GetChecksum` from internal/api/types.go. -/
def FileMetadata.GetChecksum (f : FileMetadata) : String × String :=
  let cs := f.plainChecksum
  let cs := if cs = "" then f.unencryptedChecksum else cs
  let cs := if cs = "" then f.checksum else cs
  if cs = "" then ("", "")
  else if f.checksumType ≠ "" then (cs, f.checksumType)
  else if cs.length = 32 then (cs, "MD5")
  else if cs.length = 64 then (cs, "SHA256")
  else (cs, "")

/-- `DatasetFile` from internal/api/types.go. -/
structure DatasetFile where
  fileID : String
  fileName : String
  fileSize : Nat
  checksum : String
  plainChecksum : String
  unencryptedChecksum : String
  checksumType : String
  fileStatus : String
deriving DecidableEq, Repr

/-- `(*DatasetFile).GetChecksum` from internal/api/types.go (the Go method
body is a verbatim copy of the `FileMetadata` one). -/
def DatasetFile.GetChecksum (f : DatasetFile) : String × String :=
  let cs := f.plainChecksum
  let cs := if cs = "" then f.unencryptedChecksum else cs
  let cs := if cs = "" then f.checksum else cs
  if cs = "" then ("", "")
  else if f.checksumType ≠ "" then (cs, f.checksumType)
  else if cs.length = 32 then (cs, "MD5")
  else if cs.length = 64 then (cs, "SHA256")
  else (cs, "")

/-- The claimed behaviour, stated on the four field values: first non-empty
of plain/unencrypted/checksum; declared type wins when non-empty; else MD5
for 32 chars, SHA256 for 64, empty type otherwise; `("","")` if all empty. -/
def GetChecksumSpec (plain unenc chk ctype : String) (result : String × String) : Prop :=
  let first := if plain ≠ "" then plain else if unenc ≠ "" then unenc else chk
  (plain = "" → unenc = "" → chk = "" → result = ("", "")) ∧
  (first ≠ "" → ctype ≠ "" → result = (first, ctype)) ∧
  (first ≠ "" → ctype = "" → first.length = 32 → result = (first, "MD5")) ∧
  (first ≠ "" → ctype = "" → first.length = 64 → result = (first, "SHA256")) ∧
  (first ≠ "" → ctype = "" → first.length ≠ 32 → first.length ≠ 64 → result = (first, ""))

lemma getChecksumSpec_core (plain unenc chk ctype : String) :
    GetChecksumSpec plain unenc chk ctype
      (let cs := plain
       let cs := if cs = "" then unenc else cs
       let cs := if cs = "" then chk else cs
       if cs = "" then ("", "")
       else if ctype ≠ "" then (cs, ctype)
       else if cs.length = 32 then (cs, "MD5")
       else if cs.length = 64 then (cs, "SHA256")
       else (cs, "")) := by
  unfold GetChecksumSpec
  by_cases hp : plain = "" <;> by_cases hu : unenc = "" <;> by_cases hc : chk = "" <;>
    simp only [hp, hu, hc, if_pos, if_neg, if_true, if_false, ite_true, ite_false,
      not_true, not_false_iff, ite_not, ne_eq] <;>
    first
      | (split_ifs <;> simp_all)
      | simp_all

/-- C10: `GetChecksum` (on both `FileMetadata` and `DatasetFile`) returns the
first non-empty value among plainChecksum, unencryptedChecksum, checksum,
paired with the declared checksumType when non-empty; with an empty declared
type it infers "MD5" for a 32-character value and "SHA256" for a
64-character value, infers nothing for other lengths, and returns
`("", "")` when all three fields are empty. -/
theorem GetChecksum_selects_first_nonempty :
    (∀ f : FileMetadata, GetChecksumSpec f.plainChecksum f.unencryptedChecksum
      f.checksum f.checksumType f.GetChecksum) ∧
    (∀ f : DatasetFile, GetChecksumSpec f.plainChecksum f.unencryptedChecksum
      f.checksum f.checksumType f.GetChecksum) :=
  ⟨fun f => getChecksumSpec_core f.plainChecksum f.unencryptedChecksum
      f.checksum f.checksumType,
   fun f => getChecksumSpec_core f.plainChecksum f.unencryptedChecksum
      f.checksum f.checksumType⟩

/-- Concrete metadata record for the C10 witness: only the legacy
`unencryptedChecksum` field is set, with a 32-character value and no
declared type. -/
def fmC10 : FileMetadata :=
  { fileID := "EGAF4", fileName := "d.bam", fileSize := 1,
    checksum := "", plainChecksum := "",
    unencryptedChecksum := "0123456789abcdef0123456789abcdef",
    checksumType := "", fileStatus := "available" }

/-- Witness for C10 at a concrete input. -/
theorem GetChecksum_selects_first_nonempty_witness :
    GetChecksumSpec fmC10.plainChecksum fmC10.unencryptedChecksum
      fmC10.checksum fmC10.checksumType fmC10.GetChecksum :=
  GetChecksum_selects_first_nonempty.1 fmC10

/-! ## Claim C6: error classification (internal/download/chunk.go:
isRetryableError; internal/api/types.go: APIError.IsRetryable) -/

/-- `APIError` from internal/api/types.go. -/
structure APIError where
  statusCode : Nat
  body : String
  message : String
deriving DecidableEq, Repr

/-- `(*APIError).IsRetryable`: server errors (5xx) and rate limiting (429). -/
def APIError.IsRetryable (e : APIError) : Bool :=
  e.statusCode == 429 || 500 ≤ e.statusCode

/-- A Go error value is modelled by its unwrap chain: the list of leaf
kinds that `errors.As` / `errors.Is` can see.  `[]` models a nil error. -/
inductive GoErrKind where
  /-- any error whose chain member implements `net.Error` (connection reset,
  DNS failure, TLS error, dial timeout ...) -/
  | net
  /-- the `context.Canceled` sentinel -/
  | canceled
  /-- the `context.DeadlineExceeded` sentinel -/
  | deadlineExceeded
  /-- a `*api.APIError` -/
  | api (e : APIError)
  /-- a local I/O error (disk full, permission denied: `*fs.PathError`,
  which implements neither `net.Error` nor the sentinels) -/
  | ioLocal
  /-- anything else -/
  | other
deriving DecidableEq, Repr

/-- Whether a chain member satisfies `errors.As(err, &netErr)`. -/
def isNetError : GoErrKind → Bool
  | .net => true
  | _ => false

/-- Whether a chain member is a `*api.APIError` (for `errors.As`). -/
def isAPIError : GoErrKind → Bool
  | .api _ => true
  | _ => false

/-- `isRetryableError` from internal/download/chunk.go: nil is not
retryable; network errors are retryable (checked FIRST); context
cancellation/deadline are not; API errors defer to `IsRetryable`;
everything else defaults to retryable. -/
def isRetryableError (chain : List GoErrKind) : Bool :=
  if chain = [] then false
  else if chain.any isNetError then true
  else if chain.contains GoErrKind.canceled || chain.contains GoErrKind.deadlineExceeded then
    false
  else
    match chain.find? isAPIError with
    | some (.api e) => e.IsRetryable
    | _ => true

/-- C6 counterexample: a local I/O error (disk full / permission denied),
which is neither a `net.Error`, a context sentinel, nor an `APIError`,
falls through to the default branch and IS retryable — the claim says
local I/O errors are not retryable. -/
theorem isRetryableError_ioLocal_retryable :
    isRetryableError [GoErrKind.ioLocal] = true := by decide

/-- C6 (amended): transport errors are retryable and classified before the
cancellation check (a chain containing a net error is retryable even if it
also wraps a deadline sentinel); cancellation/deadline without a transport
error is not retryable; an API error (first found in the chain) is
retryable iff its status is 429 or ≥ 500; but a local I/O error matches no
special case and hits the retryable default — contrary to the claim, it is
retried. -/
theorem isRetryableError_classification :
    (∀ chain : List GoErrKind, chain.any isNetError = true →
      isRetryableError chain = true) ∧
    (∀ chain : List GoErrKind, chain ≠ [] → chain.any isNetError = false →
      (chain.contains GoErrKind.canceled = true ∨
        chain.contains GoErrKind.deadlineExceeded = true) →
      isRetryableError chain = false) ∧
    (∀ (chain : List GoErrKind) (e : APIError), chain.any isNetError = false →
      chain.contains GoErrKind.canceled = false →
      chain.contains GoErrKind.deadlineExceeded = false →
      chain.find? isAPIError = some (GoErrKind.api e) →
      (isRetryableError chain = true ↔ (e.statusCode = 429 ∨ 500 ≤ e.statusCode))) ∧
    (∀ chain : List GoErrKind, chain ≠ [] → chain.any isNetError = false →
      chain.contains GoErrKind.canceled = false →
      chain.contains GoErrKind.deadlineExceeded = false →
      chain.find? isAPIError = none →
      isRetryableError chain = true) := by
  refine ⟨?_, ?_, ?_, ?_⟩
  · intro chain h
    have hne : chain ≠ [] := by
      intro hx; subst hx; simp at h
    simp [isRetryableError, hne, h]
  · intro chain hne hnet hctx
    have hor : (chain.contains GoErrKind.canceled
        || chain.contains GoErrKind.deadlineExceeded) = true := by
      rcases hctx with h | h <;> rw [h] <;> simp
    rw [isRetryableError, if_neg hne,
      if_neg (show ¬ chain.any isNetError = true by simp [hnet]),
      if_pos hor]
  · intro chain e hnet hc hd hfind
    have hne : chain ≠ [] := by
      intro hx; subst hx; simp at hfind
    rw [isRetryableError, if_neg hne,
      if_neg (show ¬ chain.any isNetError = true by simp [hnet]),
      if_neg (show ¬ (chain.contains GoErrKind.canceled
        || chain.contains GoErrKind.deadlineExceeded) = true by
          rw [hc, hd]; simp),
      hfind]
    show APIError.IsRetryable e = true ↔ _
    simp [APIError.IsRetryable]
  · intro chain hne hnet hc hd hfind
    rw [isRetryableError, if_neg hne,
      if_neg (show ¬ chain.any isNetError = true by simp [hnet]),
      if_neg (show ¬ (chain.contains GoErrKind.canceled
        || chain.contains GoErrKind.deadlineExceeded) = true by
          rw [hc, hd]; simp),
      hfind]

/-- Witness for the amended C6: a 503 API error wrapped with `fmt.Errorf`
(an `other` wrapper in front) is retryable by the 429/5xx rule. -/
theorem isRetryableError_classification_witness :
    ([GoErrKind.other, GoErrKind.api ⟨503, "", ""⟩].any isNetError = false ∧
     [GoErrKind.other, GoErrKind.api ⟨503, "", ""⟩].contains GoErrKind.canceled = false ∧
     [GoErrKind.other, GoErrKind.api ⟨503, "", ""⟩].contains GoErrKind.deadlineExceeded = false ∧
     [GoErrKind.other, GoErrKind.api ⟨503, "", ""⟩].find? isAPIError
        = some (GoErrKind.api ⟨503, "", ""⟩)) ∧
    (isRetryableError [GoErrKind.other, GoErrKind.api ⟨503, "", ""⟩] = true ↔
      ((⟨503, "", ""⟩ : APIError).statusCode = 429 ∨
        500 ≤ (⟨503, "", ""⟩ : APIError).statusCode)) :=
  ⟨⟨by decide, by decide, by decide, by decide⟩,
    isRetryableError_classification.2.2.1 [GoErrKind.other, GoErrKind.api ⟨503, "", ""⟩]
      ⟨503, "", ""⟩ (by decide) (by decide) (by decide) (by decide)⟩

/-! ## Claim C3: atomic JSON writes (internal/state: atomicWriteJSON) -/

/-- Abstract view of the filesystem slots one `atomicWriteJSON` call
touches: the target path (contents and permission bits) and this call's
temp file.  `os.CreateTemp` guarantees the `.tmp-*` name is fresh, so the
temp slot does not exist before the call. -/
structure FsState where
  targetContents : Option String
  targetPerm : Nat
  tmpExists : Bool
  tmpContents : String
  tmpPerm : Nat
deriving DecidableEq, Repr

/-- Which of the fallible steps of `atomicWriteJSON` succeed on this run
(marshal, CreateTemp, Write, Sync, Close, Chmod, Rename). -/
structure WriteOutcomes where
  marshalOk : Bool
  createOk : Bool
  writeOk : Bool
  syncOk : Bool
  closeOk : Bool
  chmodOk : Bool
  renameOk : Bool
deriving DecidableEq, Repr

/-- `atomicWriteJSON` from internal/state (part of the state package):
marshal; create a unique temp file in the target directory; write, sync,
close; chmod to 0644 (`filePerm`); rename onto the target.  A deferred
cleanup removes the temp file unless the rename succeeded.  Returns the
final filesystem state and whether the call succeeded. -/
def atomicWriteJSON (oc : WriteOutcomes) (data : String) (fs : FsState) :
    FsState × Bool :=
  if !oc.marshalOk then (fs, false)
  else if !oc.createOk then (fs, false)
  else
    -- temp file now exists (CreateTemp makes it with mode 0600)
    let fs1 : FsState := { fs with tmpExists := true, tmpContents := "", tmpPerm := 0o600 }
    if !oc.writeOk then ({ fs1 with tmpExists := false }, false)
    else
      let fs2 := { fs1 with tmpContents := data }
      if !oc.syncOk then ({ fs2 with tmpExists := false }, false)
      else if !oc.closeOk then ({ fs2 with tmpExists := false }, false)
      else if !oc.chmodOk then ({ fs2 with tmpExists := false }, false)
      else
        let fs3 := { fs2 with tmpPerm := 0o644 }
        if !oc.renameOk then ({ fs3 with tmpExists := false }, false)
        else
          ({ fs3 with
              tmpExists := false
              targetContents := some fs3.tmpContents
              targetPerm := fs3.tmpPerm }, true)

/-- C3: every `atomicWriteJSON` run (and hence every `SaveFileState` /
`SaveManifest`, whose bodies are exactly `atomicWriteJSON` on the
marshalled value) ends with the temp file gone; on success the target
holds exactly the new bytes with permissions 0644; on any failure the
target's prior contents and permissions are untouched — a reader sees the
old snapshot or the new one, never a partial write. -/
theorem atomicWriteJSON_atomic (oc : WriteOutcomes) (data : String) (fs : FsState)
    (hfresh : fs.tmpExists = false) :
    (atomicWriteJSON oc data fs).1.tmpExists = false ∧
    ((atomicWriteJSON oc data fs).2 = true →
      (atomicWriteJSON oc data fs).1.targetContents = some data ∧
      (atomicWriteJSON oc data fs).1.targetPerm = 0o644) ∧
    ((atomicWriteJSON oc data fs).2 = false →
      (atomicWriteJSON oc data fs).1.targetContents = fs.targetContents ∧
      (atomicWriteJSON oc data fs).1.targetPerm = fs.targetPerm) := by
  unfold atomicWriteJSON
  rcases oc with ⟨m, c, w, s, cl, ch, r⟩
  cases m <;> cases c <;> cases w <;> cases s <;> cases cl <;> cases ch <;> cases r <;>
    simp_all

/-- Witness for C3: a fully successful run over an empty target. -/
theorem atomicWriteJSON_atomic_witness :
    ((⟨none, 0, false, "", 0⟩ : FsState).tmpExists = false) ∧
    ((atomicWriteJSON ⟨true, true, true, true, true, true, true⟩ "x"
        ⟨none, 0, false, "", 0⟩).1.tmpExists = false ∧
     ((atomicWriteJSON ⟨true, true, true, true, true, true, true⟩ "x"
        ⟨none, 0, false, "", 0⟩).2 = true →
       (atomicWriteJSON ⟨true, true, true, true, true, true, true⟩ "x"
          ⟨none, 0, false, "", 0⟩).1.targetContents = some "x" ∧
       (atomicWriteJSON ⟨true, true, true, true, true, true, true⟩ "x"
          ⟨none, 0, false, "", 0⟩).1.targetPerm = 0o644) ∧
     ((atomicWriteJSON ⟨true, true, true, true, true, true, true⟩ "x"
        ⟨none, 0, false, "", 0⟩).2 = false →
       (atomicWriteJSON ⟨true, true, true, true, true, true, true⟩ "x"
          ⟨none, 0, false, "", 0⟩).1.targetContents
         = (⟨none, 0, false, "", 0⟩ : FsState).targetContents ∧
       (atomicWriteJSON ⟨true, true, true, true, true, true, true⟩ "x"
          ⟨none, 0, false, "", 0⟩).1.targetPerm
         = (⟨none, 0, false, "", 0⟩ : FsState).targetPerm)) :=
  ⟨rfl, atomicWriteJSON_atomic ⟨true, true, true, true, true, true, true⟩ "x"
    ⟨none, 0, false, "", 0⟩ rfl⟩

/-! ## Claim C1: chunk attempt vs 200 OK (internal/download/chunk.go:
attemptDownload; api client: DoStreamRequest) -/

/-- An HTTP response: status code and body bytes. -/
structure HTTPResponse where
  statusCode : Nat
  body : List Nat
deriving DecidableEq, Repr

/-- `(*Client).DoStreamRequest` from the api client: the response is
returned unread for statuses 200 (`StatusOK`) and 206
(`StatusPartialContent`); every other status becomes a typed `APIError`
carrying the status code and drained body. -/
def DoStreamRequest (resp : HTTPResponse) : Except APIError HTTPResponse :=
  if resp.statusCode ≠ 200 ∧ resp.statusCode ≠ 206 then
    .error { statusCode := resp.statusCode, body := "", message := "" }
  else .ok resp

/-- `(*ChunkDownloader).attemptDownload` from internal/download/chunk.go,
stated over the part-file on disk (`partFile`, `none` when absent) and the
server's response to the ranged GET (`Range: bytes=start+existing .. end-1`).
Zero-size chunks just (re)create an empty part-file; an already-full
part-file is the offline resume fast path; otherwise the body is streamed
into the part-file, which is opened with `O_APPEND|O_CREATE|O_WRONLY` —
the body bytes are appended after any existing bytes, for EVERY accepted
status (200 and 206 alike; the status code is never inspected). Returns
the updated chunk, the part-file contents, and whether the attempt
succeeded. -/
def attemptDownload (chunk : ChunkState) (partFile : Option (List Nat))
    (resp : HTTPResponse) : ChunkState × Option (List Nat) × Bool :=
  let existingSize := (partFile.getD []).length
  let expectedSize := chunk.stop - chunk.start
  if expectedSize = 0 then
    ({ chunk with status := .complete, bytesDownloaded := 0 }, some [], true)
  else if expectedSize ≤ existingSize then
    ({ chunk with status := .complete, bytesDownloaded := expectedSize },
      partFile, true)
  else
    match DoStreamRequest resp with
    | .error _ => (chunk, partFile, false)
    | .ok r =>
        ({ chunk with
            status := .complete
            bytesDownloaded := existingSize + r.body.length },
          some ((partFile.getD []) ++ r.body), true)

/-- The chunk, prior part-file, and 200 OK response of the C1 failing
input: chunk `[0,100)` with 40 bytes already on disk; the server ignores
the Range header and resends the whole 100-byte range with status 200. -/
def chunkC1 : ChunkState :=
  { index := 0, start := 0, stop := 100, status := .pending,
    bytesDownloaded := 40, retryCount := 0 }

def partC1 : List Nat := List.replicate 40 7

def respC1 : HTTPResponse := { statusCode := 200, body := List.replicate 100 7 }

/-- C1: the code violates the claim.  On a 200 OK response the attempt
"succeeds" and marks the chunk complete, but the part-file was opened in
append mode and never truncated: it ends up holding 140 bytes — the 40
prior bytes followed by the full 100-byte body — instead of exactly the
100 bytes of `[start, end)`. -/
theorem attemptDownload_200_appends_without_truncation :
    (attemptDownload chunkC1 (some partC1) respC1).2.2 = true ∧
    (attemptDownload chunkC1 (some partC1) respC1).1.status = ChunkStatus.complete ∧
    (attemptDownload chunkC1 (some partC1) respC1).2.1 = some (partC1 ++ respC1.body) ∧
    ((attemptDownload chunkC1 (some partC1) respC1).2.1.getD []).length = 140 ∧
    chunkC1.stop - chunkC1.start = 100 := by
  refine ⟨rfl, rfl, rfl, ?_, rfl⟩
  simp [attemptDownload, chunkC1, partC1, respC1, DoStreamRequest]

/-! ## The Run state machine (internal/download/file.go: Run)

`Run` loops over `fstate.Status`, persisting the snapshot at the top of
every iteration.  One iteration is embedded as `runStep`; the effect of a
successful `downloadChunks` against a range-honoring server is that every
not-yet-complete chunk ends complete with `bytes_downloaded = end - start`
(`attemptDownload` success paths), and completed chunks are not dispatched
(`PendingChunks` filters them). -/

def maxFileRetries : Nat := 3

/-- The result of one `Run` loop iteration: continue looping with the new
state, or return from `Run` (with the state as last persisted and an
optional error). -/
inductive StepRes where
  | cont (fs : FileState)
  | done (fs : FileState) (err : Option String)
deriving DecidableEq, Repr

def StepRes.state : StepRes → FileState
  | .cont fs => fs
  | .done fs _ => fs

/-- Effect of a fully successful `downloadChunks` wave on the chunk list:
pending chunks become complete with all their bytes; complete chunks are
untouched. -/
def markChunksComplete (chunks : List ChunkState) : List ChunkState :=
  chunks.map fun c =>
    if c.status = ChunkStatus.complete then c
    else { c with status := .complete, bytesDownloaded := c.stop - c.start }

/-- One iteration of `(*FileDownload).Run`'s switch, with the fallible
phases (download, merge, verify+md5) given by outcome flags and the
download URL by `url`.  Failure messages stand in for the wrapped Go
errors. -/
def runStep (downloadOk mergeOk verifyOk : Bool) (url : String)
    (fs : FileState) : StepRes :=
  match fs.status with
  | .pending | .chunking =>
      .cont { fs.InitChunks with status := .downloading }
  | .downloading =>
      if downloadOk then
        .cont { fs with
            downloadURL := url
            chunks := markChunksComplete fs.chunks
            status := .merging }
      else
        .done { fs with
            downloadURL := url
            status := .failed
            error := "download error" } (some "download error")
  | .merging =>
      if mergeOk then .cont { fs with status := .verifying }
      else .done { fs with status := .failed, error := "merge error" }
        (some "merge error")
  | .verifying =>
      if verifyOk then .done { fs with status := .complete } none
      else .done { fs with status := .failed, error := "checksum mismatch" }
        (some "checksum mismatch")
  | .complete => .done fs none
  | .failed =>
      if fs.retryCount < maxFileRetries then
        .cont { fs with
            retryCount := fs.retryCount + 1
            status := .downloading
            error := "" }
      else .done fs (some ("download failed after retries: " ++ fs.error))

/-- `(*FileDownload).bytesDownloaded` from internal/download/file.go:
total bytes downloaded across all chunks of the state. -/
def bytesDownloaded (fs : FileState) : Nat :=
  fs.chunks.foldl (fun total c => total + c.bytesDownloaded) 0

/-! ## Claim C5: the byte-count law -/

/-- Fresh single-chunk file for the C5 counterexample: 4 bytes, 4-byte chunks. -/
def fsC5 : FileState :=
  { fileID := "EGAF5", fileName := "e.bam", status := .pending, size := 4,
    checksumExpected := "", checksumType := "", chunkSize := 4, chunks := [],
    downloadURL := "", error := "", retryCount := 0 }

/-- The state persisted at the top of the third `Run` iteration of a fully
successful download of `fsC5`: all chunks complete, status Merging. -/
def s2C5 : FileState :=
  ((runStep true true true "u" ((runStep true true true "u" fsC5).state)).state)

lemma foldl_add_bytes (l : List ChunkState) :
    ∀ a : Nat, l.foldl (fun total c => total + c.bytesDownloaded) a
      = a + (l.map (·.bytesDownloaded)).sum := by
  induction l with
  | nil => intro a; simp
  | cons c rest ih =>
    intro a
    simp only [List.foldl_cons, List.map_cons, List.sum_cons, ih]
    omega

/-- C5 counterexample: in the reachable persisted state `s2C5` the chunk
byte total equals the file size although the status is Merging, not
Complete — refuting "Σ bytes_downloaded = size iff status is Complete". -/
theorem byteCount_equality_before_complete :
    bytesDownloaded s2C5 = s2C5.size ∧
    s2C5.status = FileStatus.merging ∧
    s2C5.status ≠ FileStatus.complete := by
  have hbuild : buildChunks 4 4 0 0 =
      [{ index := 0, start := 0, stop := 4, status := .pending,
         bytesDownloaded := 0, retryCount := 0 }] := by
    rw [buildChunks]; norm_num
    rw [buildChunks]; norm_num
  have hs2 : s2C5 =
      { fileID := "EGAF5", fileName := "e.bam", status := .merging, size := 4,
        checksumExpected := "", checksumType := "", chunkSize := 4,
        chunks := [{ index := 0, start := 0, stop := 4, status := .complete,
                     bytesDownloaded := 4, retryCount := 0 }],
        downloadURL := "u", error := "", retryCount := 0 } := by
    simp [s2C5, runStep, fsC5, FileState.InitChunks, hbuild, markChunksComplete,
      StepRes.state]
  rw [hs2]
  refine ⟨?_, rfl, by simp⟩
  simp [bytesDownloaded]

/-- Sum of per-chunk byte counters over a contiguous chain covering
`[lo, hi)`, when every counter respects its chunk's span. -/
lemma sumBytes_chain : ∀ {cs : List ChunkState} {lo hi : Nat},
    chainFrom lo cs = some hi →
    (∀ c ∈ cs, c.bytesDownloaded ≤ c.stop - c.start) →
    ((cs.map (·.bytesDownloaded)).sum ≤ hi - lo ∧
      ((cs.map (·.bytesDownloaded)).sum = hi - lo ↔
        ∀ c ∈ cs, c.bytesDownloaded = c.stop - c.start)) := by
  intro cs
  induction cs with
  | nil =>
    intro lo hi h _
    have := chainFrom_nil_eq h
    subst this
    simp
  | cons c rest ih =>
    intro lo hi h hb
    obtain ⟨h1, h2, h3⟩ := chainFrom_cons h
    have hstop : c.stop ≤ hi := chainFrom_le h3
    have hbc : c.bytesDownloaded ≤ c.stop - c.start :=
      hb c (List.mem_cons_self c rest)
    obtain ⟨ihle, ihiff⟩ := ih h3 (fun d hd => hb d (List.mem_cons_of_mem c hd))
    rw [h1] at hbc
    constructor
    · simp only [List.map_cons, List.sum_cons]
      omega
    · simp only [List.map_cons, List.sum_cons, List.mem_cons]
      constructor
      · intro hsum
        have hrest : (rest.map (·.bytesDownloaded)).sum = hi - c.stop := by omega
        have hcfull : c.bytesDownloaded = c.stop - lo := by omega
        intro d hd
        rcases hd with hd | hd
        · subst hd; rw [h1]; exact hcfull
        · exact (ihiff.mp hrest) d hd
      · intro hall
        have hcfull : c.bytesDownloaded = c.stop - c.start :=
          hall c (Or.inl rfl)
        have hrest : (rest.map (·.bytesDownloaded)).sum = hi - c.stop :=
          ihiff.mpr (fun d hd => hall d (Or.inr hd))
        rw [h1] at hcfull
        omega

/-- C5 (amended): for every FileState whose chunks partition `[0, size)`
and whose per-chunk counters respect `bytes_downloaded ≤ end − start`
(which successful range-honored attempts maintain), the total is at most
`size`, with equality iff every chunk is fully downloaded.  Equality
therefore holds from the moment all chunks complete — already at status
Merging/Verifying — so "equals size iff status Complete" weakens to "iff
all chunks are full"; status Complete still implies equality. -/
theorem byteCountLaw (fs : FileState)
    (hchain : chainFrom 0 fs.chunks = some fs.size)
    (hbound : ∀ c ∈ fs.chunks, c.bytesDownloaded ≤ c.stop - c.start) :
    bytesDownloaded fs ≤ fs.size ∧
    (bytesDownloaded fs = fs.size ↔
      ∀ c ∈ fs.chunks, c.bytesDownloaded = c.stop - c.start) := by
  have hsum : bytesDownloaded fs = (fs.chunks.map (·.bytesDownloaded)).sum := by
    rw [bytesDownloaded, foldl_add_bytes]
    omega
  have := sumBytes_chain hchain hbound
  rw [hsum]
  simpa using this

/-- Witness for the amended C5 at a concrete input (`s2C5`: one full
chunk, 4 of 4 bytes). -/
theorem byteCountLaw_witness :
    (chainFrom 0 s2C5.chunks = some s2C5.size ∧
      ∀ c ∈ s2C5.chunks, c.bytesDownloaded ≤ c.stop - c.start) ∧
    (bytesDownloaded s2C5 ≤ s2C5.size ∧
      (bytesDownloaded s2C5 = s2C5.size ↔
        ∀ c ∈ s2C5.chunks, c.bytesDownloaded = c.stop - c.start)) := by
  have hbuild : buildChunks 4 4 0 0 =
      [{ index := 0, start := 0, stop := 4, status := .pending,
         bytesDownloaded := 0, retryCount := 0 }] := by
    rw [buildChunks]; norm_num
    rw [buildChunks]; norm_num
  have hs2 : s2C5 =
      { fileID := "EGAF5", fileName := "e.bam", status := .merging, size := 4,
        checksumExpected := "", checksumType := "", chunkSize := 4,
        chunks := [{ index := 0, start := 0, stop := 4, status := .complete,
                     bytesDownloaded := 4, retryCount := 0 }],
        downloadURL := "u", error := "", retryCount := 0 } := by
    simp [s2C5, runStep, fsC5, FileState.InitChunks, hbuild, markChunksComplete,
      StepRes.state]
  have h1 : chainFrom 0 s2C5.chunks = some s2C5.size := by
    rw [hs2]; decide
  have h2 : ∀ c ∈ s2C5.chunks, c.bytesDownloaded ≤ c.stop - c.start := by
    rw [hs2]; decide
  exact ⟨⟨h1, h2⟩, byteCountLaw s2C5 h1 h2⟩

/-! ## Claim C8: file-level retry in the state machine -/

/-- C8: in `Run`'s switch, a Failed state with `retry_count <
maxFileRetries` (= 3) increments the counter, clears the error and goes
back to Downloading; with `retry_count ≥ 3` Failed is terminal and `Run`
returns an error; Complete is terminal and returns nil. -/
theorem Run_failed_retries_up_to_three (d m v : Bool) (url : String)
    (fs : FileState) :
    maxFileRetries = 3 ∧
    (fs.status = FileStatus.failed → fs.retryCount < 3 →
      runStep d m v url fs = .cont { fs with
        retryCount := fs.retryCount + 1
        status := .downloading
        error := "" }) ∧
    (fs.status = FileStatus.failed → 3 ≤ fs.retryCount →
      runStep d m v url fs
        = .done fs (some ("download failed after retries: " ++ fs.error))) ∧
    (fs.status = FileStatus.complete → runStep d m v url fs = .done fs none) := by
  refine ⟨rfl, ?_, ?_, ?_⟩
  · intro hst hrc
    rw [runStep]
    rw [hst]
    simp only [maxFileRetries]
    rw [if_pos hrc]
  · intro hst hrc
    rw [runStep]
    rw [hst]
    simp only [maxFileRetries]
    rw [if_neg (by omega)]
  · intro hst
    rw [runStep, hst]

/-- A failed state on its second retry, for the C8 witness. -/
def fsC8 : FileState :=
  { fileID := "EGAF6", fileName := "f.bam", status := .failed, size := 4,
    checksumExpected := "", checksumType := "", chunkSize := 4, chunks := [],
    downloadURL := "", error := "boom", retryCount := 1 }

/-- Witness for C8 at a concrete input. -/
theorem Run_failed_retries_up_to_three_witness :
    (fsC8.status = FileStatus.failed ∧ fsC8.retryCount < 3) ∧
    runStep true true true "u" fsC8 = .cont { fsC8 with
      retryCount := fsC8.retryCount + 1
      status := .downloading
      error := "" } :=
  ⟨⟨rfl, by decide⟩,
    (Run_failed_retries_up_to_three true true true "u" fsC8).2.1 rfl (by decide)⟩

/-! ## Claim C9: the Orchestrator skips completed files before the
semaphore (internal/download/orchestrator.go: Download, downloadFile) -/

/-- Observable actions of the per-file task spawned by
`(*Orchestrator).Download`.  Network requests and output mutation happen
only inside `runFileDownloader` (the constructed `FileDownload.Run`). -/
inductive OrchEvent where
  | loadState
  | skipCallback
  | acquireSemaphore
  | startCallback
  | runFileDownloader
  | doneCallback
deriving DecidableEq, Repr

/-- The body of the per-file goroutine in `(*Orchestrator).Download`
followed by `downloadFile`: load the persisted state (before the
semaphore); if complete, fire `onFileSkip` and return nil; otherwise
acquire the semaphore and run `downloadFile`, which re-loads and
re-checks, fires `onFileStart`, constructs and runs a `FileDownload`, and
fires `onFileDone`.  `loadOk` is whether `LoadFileState` succeeds,
`persisted` its result, `runErr` the abstract outcome of `Run`. -/
def orchFileTask (loadOk : Bool) (persisted : Option FileState)
    (runErr : Option String) : List OrchEvent × Option String :=
  if !loadOk then ([.loadState], some "load state error")
  else
    match persisted with
    | some fsx =>
        if fsx.IsComplete then ([.loadState, .skipCallback], none)
        else
          ([.loadState, .acquireSemaphore, .loadState, .startCallback,
            .runFileDownloader, .doneCallback], runErr)
    | none =>
        ([.loadState, .acquireSemaphore, .loadState, .startCallback,
          .runFileDownloader, .doneCallback], runErr)

/-- C9: when the persisted FileState is Complete, the per-file task fires
the skip callback and returns nil right after the (pre-semaphore) state
load: it never acquires a file-parallelism permit, never constructs or
runs a File Downloader (hence no network requests and no output
mutation for that file), and reports no error. -/
theorem Orchestrator_skips_complete (persisted : Option FileState)
    (runErr : Option String) (fsx : FileState)
    (hp : persisted = some fsx) (hc : fsx.IsComplete = true) :
    orchFileTask true persisted runErr = ([.loadState, .skipCallback], none) ∧
    OrchEvent.acquireSemaphore ∉ (orchFileTask true persisted runErr).1 ∧
    OrchEvent.runFileDownloader ∉ (orchFileTask true persisted runErr).1 ∧
    OrchEvent.startCallback ∉ (orchFileTask true persisted runErr).1 ∧
    (orchFileTask true persisted runErr).2 = none := by
  subst hp
  refine ⟨?_, ?_, ?_, ?_, ?_⟩ <;> simp [orchFileTask, hc]

/-- A persisted Complete state for the C9 witness. -/
def fsC9 : FileState :=
  { fileID := "EGAF7", fileName := "g.bam", status := .complete, size := 4,
    checksumExpected := "", checksumType := "", chunkSize := 4,
    chunks := [{ index := 0, start := 0, stop := 4, status := .complete,
                 bytesDownloaded := 4, retryCount := 0 }],
    downloadURL := "", error := "", retryCount := 0 }

/-- Witness for C9 at a concrete input. -/
theorem Orchestrator_skips_complete_witness :
    (some fsC9 = some fsC9 ∧ fsC9.IsComplete = true) ∧
    (orchFileTask true (some fsC9) none = ([.loadState, .skipCallback], none) ∧
     OrchEvent.acquireSemaphore ∉ (orchFileTask true (some fsC9) none).1 ∧
     OrchEvent.runFileDownloader ∉ (orchFileTask true (some fsC9) none).1 ∧
     OrchEvent.startCallback ∉ (orchFileTask true (some fsC9) none).1 ∧
     (orchFileTask true (some fsC9) none).2 = none) :=
  ⟨⟨rfl, by decide⟩,
    Orchestrator_skips_complete (some fsC9) none fsC9 rfl (by decide)⟩

/-! ## Claim C7: per-chunk retry loop (internal/download/chunk.go: Download)

`(*ChunkDownloader).Download` runs `for attempt := 0; attempt <=
maxChunkRetries; attempt++`, sleeping `min(baseDelay << (attempt-1),
maxDelay) + rand.Intn(1000)ms` before every attempt but the first.  The
outcome of each `attemptDownload` call is abstracted by an oracle; the
random source by `jitter` (taken mod 1000 exactly as `rand.Intn(1000)`).
Times are in milliseconds: `baseDelay = 1000`, `maxDelay = 60000`. -/

def maxChunkRetries : Nat := 5

/-- Outcome of one `attemptDownload` call: success (with the byte counter
the attempt leaves), a retryable failure, or a non-retryable failure. -/
inductive AttemptOutcome where
  | success (bytes : Nat)
  | failRetryable
  | failFatal
deriving DecidableEq, Repr

/-- How `Download` returned. -/
inductive DLOutcome where
  | success
  | nonRetryable
  | exhausted
deriving DecidableEq, Repr

/-- Result of `Download`: how it ended, how many attempts ran, the backoff
sleeps performed (ms), and the final chunk state. -/
structure DownloadResult where
  outcome : DLOutcome
  attempts : Nat
  delays : List Nat
  chunk : ChunkState
deriving DecidableEq, Repr

/-- The sleep before attempt `attempt` (≥ 1):
`min(baseDelay · 2^(attempt-1), maxDelay) + rand.Intn(1000)` ms. -/
def backoffDelay (attempt : Nat) (jitter : Nat → Nat) : Nat :=
  min (1000 * 2 ^ (attempt - 1)) 60000 + jitter attempt % 1000

/-- The retry loop of `Download`, structurally recursing on the remaining
loop iterations (`fuel = maxChunkRetries + 1 - attempt`).  A retryable
failure increments `chunk.retry_count`, marks the chunk Failed and
continues; success and non-retryable failures return at once. -/
def downloadGo (oracle : Nat → AttemptOutcome) (jitter : Nat → Nat) :
    Nat → Nat → ChunkState → Nat → List Nat → DownloadResult
  | 0, _, chunk, attemptsMade, delays =>
      { outcome := .exhausted, attempts := attemptsMade, delays := delays,
        chunk := chunk }
  | fuel + 1, attempt, chunk, attemptsMade, delays =>
      let delays2 :=
        if 0 < attempt then delays ++ [backoffDelay attempt jitter] else delays
      match oracle attempt with
      | .success b =>
          { outcome := .success, attempts := attemptsMade + 1, delays := delays2,
            chunk := { chunk with status := .complete, bytesDownloaded := b } }
      | .failFatal =>
          { outcome := .nonRetryable, attempts := attemptsMade + 1,
            delays := delays2, chunk := chunk }
      | .failRetryable =>
          downloadGo oracle jitter fuel (attempt + 1)
            { chunk with retryCount := chunk.retryCount + 1, status := .failed }
            (attemptsMade + 1) delays2

/-- `(*ChunkDownloader).Download`. -/
def Download (oracle : Nat → AttemptOutcome) (jitter : Nat → Nat)
    (chunk : ChunkState) : DownloadResult :=
  downloadGo oracle jitter (maxChunkRetries + 1) 0 chunk 0 []

/-- The chunk after `j` retryable failures have been recorded. -/
def markRetries (chunk : ChunkState) (j : Nat) : ChunkState :=
  if j = 0 then chunk
  else { chunk with retryCount := chunk.retryCount + j, status := .failed }

lemma oracle_classify (oracle : Nat → AttemptOutcome) :
    (∀ i, i ≤ 5 → oracle i = AttemptOutcome.failRetryable) ∨
    (∃ j, j ≤ 5 ∧ (∀ i, i < j → oracle i = AttemptOutcome.failRetryable) ∧
      oracle j ≠ AttemptOutcome.failRetryable) := by
  by_cases h : ∀ i, i ≤ 5 → oracle i = AttemptOutcome.failRetryable
  · exact Or.inl h
  · right
    push_neg at h
    obtain ⟨i0, hi0, hne⟩ := h
    have hex : ∃ i, oracle i ≠ AttemptOutcome.failRetryable := ⟨i0, hne⟩
    refine ⟨Nat.find hex, le_trans (Nat.find_min' hex hne) hi0, ?_, Nat.find_spec hex⟩
    intro i hi
    have hmin := Nat.find_min hex hi
    exact not_not.mp hmin

lemma Download_stop_success (oracle : Nat → AttemptOutcome) (jitter : Nat → Nat)
    (chunk : ChunkState) :
    ∀ j b, j ≤ 5 → (∀ i, i < j → oracle i = AttemptOutcome.failRetryable) →
      oracle j = AttemptOutcome.success b →
      Download oracle jitter chunk =
        { outcome := .success, attempts := j + 1,
          delays := (List.range j).map (fun i => backoffDelay (i + 1) jitter),
          chunk := { markRetries chunk j with
                      status := .complete
                      bytesDownloaded := b } } := by
  intro j b hj hpre hstop
  interval_cases j <;>
    simp [Download, downloadGo, maxChunkRetries, markRetries, hpre, hstop,
      List.range_succ]

lemma Download_stop_fatal (oracle : Nat → AttemptOutcome) (jitter : Nat → Nat)
    (chunk : ChunkState) :
    ∀ j, j ≤ 5 → (∀ i, i < j → oracle i = AttemptOutcome.failRetryable) →
      oracle j = AttemptOutcome.failFatal →
      Download oracle jitter chunk =
        { outcome := .nonRetryable, attempts := j + 1,
          delays := (List.range j).map (fun i => backoffDelay (i + 1) jitter),
          chunk := markRetries chunk j } := by
  intro j hj hpre hstop
  interval_cases j <;>
    simp [Download, downloadGo, maxChunkRetries, markRetries, hpre, hstop,
      List.range_succ]

lemma Download_exhausts (oracle : Nat → AttemptOutcome) (jitter : Nat → Nat)
    (chunk : ChunkState)
    (hall : ∀ i, i ≤ 5 → oracle i = AttemptOutcome.failRetryable) :
    Download oracle jitter chunk =
      { outcome := .exhausted, attempts := 6,
        delays := (List.range 5).map (fun i => backoffDelay (i + 1) jitter),
        chunk := markRetries chunk 6 } := by
  simp [Download, downloadGo, maxChunkRetries, markRetries, hall,
    List.range_succ]

/-- C7: `Download` makes at most `maxChunkRetries + 1 = 6` attempts; the
i-th recorded sleep (before attempt `i+1`) is exactly
`min(1000·2^i, 60000) + rand.Intn(1000)` ms, the jitter part lying in
`[0, 1000)`; when the first `j` attempts fail retryably and attempt `j`
succeeds, `Download` returns success after `j+1` attempts with the chunk
Complete and `retry_count` increased by `j`; when attempt `j` fails
non-retryably it returns at once after `j+1` attempts, with `retry_count`
increased only by the `j` earlier retryable failures (the fatal attempt
adds none) and the chunk left Failed when `j > 0`; when all 6 attempts
fail retryably it returns an error after exactly 6 attempts with
`retry_count` increased by 6 and the chunk Failed. -/
theorem Download_retry_policy (oracle : Nat → AttemptOutcome)
    (jitter : Nat → Nat) (chunk : ChunkState) :
    maxChunkRetries = 5 ∧
    (Download oracle jitter chunk).attempts ≤ 6 ∧
    (Download oracle jitter chunk).delays
      = (List.range ((Download oracle jitter chunk).attempts - 1)).map
          (fun i => min (1000 * 2 ^ i) 60000 + jitter (i + 1) % 1000) ∧
    (∀ k, jitter k % 1000 < 1000) ∧
    (∀ j b, j ≤ 5 → (∀ i, i < j → oracle i = AttemptOutcome.failRetryable) →
      oracle j = AttemptOutcome.success b →
      (Download oracle jitter chunk).outcome = DLOutcome.success ∧
      (Download oracle jitter chunk).attempts = j + 1 ∧
      (Download oracle jitter chunk).chunk.status = ChunkStatus.complete ∧
      (Download oracle jitter chunk).chunk.retryCount = chunk.retryCount + j) ∧
    (∀ j, j ≤ 5 → (∀ i, i < j → oracle i = AttemptOutcome.failRetryable) →
      oracle j = AttemptOutcome.failFatal →
      (Download oracle jitter chunk).outcome = DLOutcome.nonRetryable ∧
      (Download oracle jitter chunk).attempts = j + 1 ∧
      (Download oracle jitter chunk).chunk.retryCount = chunk.retryCount + j ∧
      (0 < j → (Download oracle jitter chunk).chunk.status = ChunkStatus.failed)) ∧
    ((∀ i, i ≤ 5 → oracle i = AttemptOutcome.failRetryable) →
      (Download oracle jitter chunk).outcome = DLOutcome.exhausted ∧
      (Download oracle jitter chunk).attempts = 6 ∧
      (Download oracle jitter chunk).chunk.retryCount = chunk.retryCount + 6 ∧
      (Download oracle jitter chunk).chunk.status = ChunkStatus.failed) := by
  have hfun : (fun i => backoffDelay (i + 1) jitter)
      = fun i => min (1000 * 2 ^ i) 60000 + jitter (i + 1) % 1000 :=
    funext fun i => by simp [backoffDelay]
  refine ⟨rfl, ?_, ?_, fun k => Nat.mod_lt _ (by omega), ?_, ?_, ?_⟩
  · -- at most 6 attempts
    rcases oracle_classify oracle with hall | ⟨j, hj, hpre, hstop⟩
    · rw [Download_exhausts oracle jitter chunk hall]
    · cases hcase : oracle j with
      | failRetryable => exact absurd hcase hstop
      | success b =>
        rw [Download_stop_success oracle jitter chunk j b hj hpre hcase]
        simp; omega
      | failFatal =>
        rw [Download_stop_fatal oracle jitter chunk j hj hpre hcase]
        simp; omega
  · -- the backoff schedule
    rcases oracle_classify oracle with hall | ⟨j, hj, hpre, hstop⟩
    · rw [Download_exhausts oracle jitter chunk hall, hfun]
      simp
    · cases hcase : oracle j with
      | failRetryable => exact absurd hcase hstop
      | success b =>
        rw [Download_stop_success oracle jitter chunk j b hj hpre hcase, hfun]
        simp
      | failFatal =>
        rw [Download_stop_fatal oracle jitter chunk j hj hpre hcase, hfun]
        simp
  · -- success after j retryable failures
    intro j b hj hpre hstop
    rw [Download_stop_success oracle jitter chunk j b hj hpre hstop]
    refine ⟨rfl, rfl, by simp [markRetries], ?_⟩
    by_cases h0 : j = 0 <;> simp [markRetries, h0]
  · -- immediate return on a non-retryable failure
    intro j hj hpre hstop
    rw [Download_stop_fatal oracle jitter chunk j hj hpre hstop]
    refine ⟨rfl, rfl, ?_, ?_⟩
    · by_cases h0 : j = 0 <;> simp [markRetries, h0]
    · intro h0
      simp [markRetries, Nat.pos_iff_ne_zero.mp h0]
  · -- exhaustion after 6 retryable failures
    intro hall
    rw [Download_exhausts oracle jitter chunk hall]
    refine ⟨rfl, rfl, by simp [markRetries], by simp [markRetries]⟩

/-- Attempt oracle for the C7 witness: two retryable failures, then success. -/
def oracleC7 : Nat → AttemptOutcome :=
  fun i => if i < 2 then .failRetryable else .success 7

/-- Random source for the C7 witness. -/
def jitterC7 : Nat → Nat := fun k => 123 + k

/-- Chunk for the C7 witness. -/
def chunkC7 : ChunkState :=
  { index := 1, start := 100, stop := 200, status := .pending,
    bytesDownloaded := 0, retryCount := 0 }

/-- Witness for C7 at a concrete input: attempts 0 and 1 fail retryably,
attempt 2 succeeds; 3 attempts total, chunk Complete, retry count +2. -/
theorem Download_retry_policy_witness :
    (2 ≤ 5 ∧ (∀ i, i < 2 → oracleC7 i = AttemptOutcome.failRetryable) ∧
      oracleC7 2 = AttemptOutcome.success 7) ∧
    ((Download oracleC7 jitterC7 chunkC7).outcome = DLOutcome.success ∧
     (Download oracleC7 jitterC7 chunkC7).attempts = 2 + 1 ∧
     (Download oracleC7 jitterC7 chunkC7).chunk.status = ChunkStatus.complete ∧
     (Download oracleC7 jitterC7 chunkC7).chunk.retryCount
        = chunkC7.retryCount + 2) :=
  ⟨⟨by omega, fun i hi => by interval_cases i <;> rfl, by decide⟩,
    (Download_retry_policy oracleC7 jitterC7 chunkC7).2.2.2.2.1 2 7 (by omega)
      (fun i hi => by interval_cases i <;> rfl) (by decide)⟩

end EGAfetch
